import Mathlib

/-!
Verification of the binaural spatial-temporal masking core of mcarray
(src/include/mcarray/BinauralMaskingImpl.h).

The repository ships only the header: the class declaration, its inline
accessors and the algorithm constants.  Those parts are embedded directly
from the source.  The bodies of the private methods (normaliseCorrelation,
spatialMasking, temportalMasking, getFramePower, processParametrisation,
calculateThresholds, the masking application helpers) are not in the
repository; they are modelled from the specification, as marked on each
definition.  Floating-point scalars are modelled as real numbers.
-/

namespace Mcarray

/-- Masking methods, from the source enum
`typedef enum FACTOR = 0, RELATIVE = 1, FULL = 3 MaskingMethod`. -/
inductive MaskingMethod where
  | FACTOR
  | RELATIVE
  | FULL
deriving DecidableEq

/-- Number of sub-band bins, from the source: `static const int _nBins = 45`. -/
def _nBins : Nat := 45

/-- Acceptance half-angle in radians, from the source:
`static constexpr double _phi = 10*M_PI/180`. -/
noncomputable def _phi : ℝ := 10 * Real.pi / 180

/-- Forgetting factor of the temporal power memory, from the source:
`static constexpr float _forgetingFactor = 0.04`. -/
def _forgetingFactor : ℝ := 0.04

/-- Divisor applied to temporally masked bins in the FACTOR method, from the
source: `static constexpr float _temporalMaskingFactor = 1`. -/
def _temporalMaskingFactor : ℝ := 1

/-- Divisor applied to spatially masked bins in the FACTOR method, from the
source: `static constexpr float _spatialMaskingFactor = 1`. -/
def _spatialMaskingFactor : ℝ := 1

/-- Multiplier applied to accepted bins, from the source:
`static constexpr float _enhanceFactor = 1`. -/
def _enhanceFactor : ℝ := 1

/-- Scaling factor of the RELATIVE method, from the source:
`static constexpr float _scalingFactor = 0.01`. -/
def _scalingFactor : ℝ := 0.01

/-- Accessor from the source header:
`inline int getNonMaskingAngle()\x7breturn _phi*180*M_1_PI;\x7d` — the double
value is truncated by the conversion to int; the value is non-negative, so
truncation towards zero is the floor. -/
noncomputable def getNonMaskingAngle : ℤ := ⌊_phi * 180 * Real.pi⁻¹⌋

/-- Accessor from the source header:
`inline float getSpatialMaskingFactor()\x7breturn 1/_spatialMaskingFactor;\x7d`. -/
noncomputable def getSpatialMaskingFactor : ℝ := 1 / _spatialMaskingFactor

/-- Accessor from the source header:
`inline float getTemporalMaskingFactor()\x7breturn 1/_temporalMaskingFactor;\x7d`. -/
noncomputable def getTemporalMaskingFactor : ℝ := 1 / _temporalMaskingFactor

/-- Total energy of a sub-band signal: the sum of squared samples. -/
def energy (x : List ℝ) : ℝ := (x.map (fun a => a * a)).sum

/-- Zero-lag cross sum of two sub-band signals. -/
def crossSum (l r : List ℝ) : ℝ := (List.zipWith (fun a b => a * b) l r).sum

/-- Modelled from the spec: the body of `normaliseCorrelation` is not in the
repository.  Spec 4.3 step 1: the normalized zero-lag cross-correlation is
the covariance divided by the product of the root-mean-square energies of the
two signals, defined as 0 when either signal has zero energy.  For signals of
a common length n the factors 1/n of the covariance and of the two RMS
energies cancel, leaving the cross sum divided by the product of the square
roots of the total energies; the cancellation is proved below. -/
noncomputable def normaliseCorrelation (l r : List ℝ) : ℝ :=
  if energy l = 0 ∨ energy r = 0 then 0
  else crossSum l r / (Real.sqrt (energy l) * Real.sqrt (energy r))

/-- Covariance at zero lag of two sub-band signals of length n, following the
words of the spec. -/
noncomputable def specCovariance (l r : List ℝ) : ℝ := crossSum l r / l.length

/-- Root-mean-square energy of a sub-band signal, following the words of the
spec. -/
noncomputable def specRmsEnergy (x : List ℝ) (n : ℕ) : ℝ := Real.sqrt (energy x / n)

/-- Modelled from the spec: the body of `spatialMasking` is not in the
repository.  Spec 4.3 step 1: the bin is spatially rejected if the normalized
correlation of its left and right sub-band signals is below the threshold of
the bin. -/
def spatialMasking (l r : List ℝ) (thresholds : Fin _nBins → ℝ) (b : Fin _nBins) : Prop :=
  normaliseCorrelation l r < thresholds b

/-- Modelled from the spec: the body of `getFramePower` is not in the
repository.  Spec 4.3 step 2 and the header doc: the power of the
channel-averaged sub-band signal. -/
noncomputable def getFramePower (l r : List ℝ) : ℝ :=
  energy (List.zipWith (fun a b => (a + b) / 2) l r)

/-- Modelled from the spec: the body of `temportalMasking` is not in the
repository (the source keeps this spelling).  Spec 4.3 step 2: the bin is
temporally rejected if the current frame power falls below the scaling factor
times the power memory of the bin. -/
noncomputable def temportalMasking (l r : List ℝ) (memory : Fin _nBins → ℝ)
    (b : Fin _nBins) : Prop :=
  getFramePower l r < _scalingFactor * memory b

/-- Modelled from the spec: the body of `zeroFrame` is not in the repository.
Header doc: sets the frame buffer to zero. -/
def zeroFrame (frame : List ℝ) : List ℝ := frame.map (fun _ => 0)

/-- Modelled from the spec: the body of `maskFrameByFactor` is not in the
repository.  Header doc: divides the signal frame by the supplied factor. -/
noncomputable def maskFrameByFactor (frame : List ℝ) (factor : ℝ) : List ℝ :=
  frame.map (fun a => a / factor)

/-- Modelled from the spec: the body of `maskFrameByScaling` is not in the
repository.  Spec 4.3 step 4, RELATIVE: the bin is scaled by a factor derived
from the ratio of the scaling factor to the current/historical power ratio. -/
noncomputable def maskFrameByScaling (frame : List ℝ) (power memory : ℝ) : List ℝ :=
  frame.map (fun a => a * (_scalingFactor / (power / memory)))

/-- Modelled from the spec: the body of `enhanceFrame` is not in the
repository.  Spec 4.3 step 4: accepted bins are multiplied by the enhance
factor. -/
def enhanceFrame (frame : List ℝ) : List ℝ := frame.map (fun a => a * _enhanceFactor)

/-- State of the masking engine that persists across frames: the per-bin
short-time power memory `_shortTimePower`, the per-bin correlation threshold
table `_thresholds`, and whether the next frame is the first one processed. -/
structure MaskingState where
  shortTimePower : Fin _nBins → ℝ
  thresholds : Fin _nBins → ℝ
  firstFrame : Bool

/-- One stereo analysis frame: per bin the left and right sub-band signals,
plus the residual signal of each channel. -/
structure BinauralFrame where
  left : Fin _nBins → List ℝ
  right : Fin _nBins → List ℝ
  residualLeft : List ℝ
  residualRight : List ℝ

/-- Recursive power-memory update rule from spec 4.3 step 2:
memory becomes memory times (1 minus the forgetting factor) plus the current
power times the forgetting factor. -/
def memoryUpdate (memory power : ℝ) : ℝ :=
  memory * (1 - _forgetingFactor) + power * _forgetingFactor

/-- Modelled from the spec: the per-bin power-memory update performed by
`processParametrisation` (body not in the repository).  Spec 4.3: the first
frame seeds the memory directly from that frame power; afterwards the
recursive rule applies, unconditionally, regardless of the masking
decision. -/
noncomputable def updatedMemory (s : MaskingState) (f : BinauralFrame)
    (b : Fin _nBins) : ℝ :=
  let p := getFramePower (f.left b) (f.right b)
  if s.firstFrame then p else memoryUpdate (s.shortTimePower b) p

open Classical in
/-- Modelled from the spec: the per-bin masking application of
`processParametrisation` (body not in the repository).  Spec 4.3 steps 3 and
4: a bin is masked if it is spatially or temporally rejected; FULL zeroes
masked bins, FACTOR divides them by the spatial or temporal masking factor,
RELATIVE scales them by the adaptive factor; accepted bins are multiplied by
the enhance factor.  The decision reads the pre-update power memory. -/
noncomputable def processBin (m : MaskingMethod) (s : MaskingState)
    (l r : List ℝ) (b : Fin _nBins) : List ℝ × List ℝ :=
  if spatialMasking l r s.thresholds b ∨ temportalMasking l r s.shortTimePower b then
    match m with
    | MaskingMethod.FULL => (zeroFrame l, zeroFrame r)
    | MaskingMethod.FACTOR =>
        if spatialMasking l r s.thresholds b then
          (maskFrameByFactor l _spatialMaskingFactor, maskFrameByFactor r _spatialMaskingFactor)
        else
          (maskFrameByFactor l _temporalMaskingFactor, maskFrameByFactor r _temporalMaskingFactor)
    | MaskingMethod.RELATIVE =>
        (maskFrameByScaling l (getFramePower l r) (s.shortTimePower b),
         maskFrameByScaling r (getFramePower l r) (s.shortTimePower b))
  else
    (enhanceFrame l, enhanceFrame r)

/-- Modelled from the spec: the body of `processParametrisation` is not in
the repository.  Spec 4.3: rewrite the sub-band content of both channels in
place per bin according to the masking decision, leave the residuals
untouched, and update the power memory of every bin afterwards,
unconditionally.  The threshold table is not modified. -/
noncomputable def processParametrisation (m : MaskingMethod) (s : MaskingState)
    (f : BinauralFrame) : MaskingState × BinauralFrame :=
  (⟨fun b => updatedMemory s f b, s.thresholds, false⟩,
   ⟨fun b => (processBin m s (f.left b) (f.right b) b).1,
    fun b => (processBin m s (f.left b) (f.right b) b).2,
    f.residualLeft, f.residualRight⟩)

/-- Sub-band reconstruction, from the header doc of `frameSynthesis`: all the
frequency bins and the residual are added to the output frame.  Sample i of
the output is the sum over the bins of sample i plus sample i of the
residual. -/
noncomputable def reconstruct (n : ℕ) (bins : Fin _nBins → List ℝ)
    (residual : List ℝ) : List ℝ :=
  (List.range n).map (fun i => (∑ b : Fin _nBins, (bins b).getD i 0) + residual.getD i 0)

/-- Frame analysis for both channels, from the header doc of `frameAnalysis`:
each channel is decomposed by its filter bank into the per-bin sub-band
signals and the residual, stored in the analysis buffer.  The filter bank is
an external collaborator, passed in as the abstract decompose operation. -/
def frameAnalysis (decompose : List ℝ → (Fin _nBins → List ℝ) × List ℝ)
    (inLeft inRight : List ℝ) : BinauralFrame :=
  ⟨(decompose inLeft).1, (decompose inRight).1,
   (decompose inLeft).2, (decompose inRight).2⟩

/-- Frame synthesis for both channels, from the header doc of
`frameSynthesis`: reconstructs each channel from the sub-band signals and the
residual stored in the analysis buffer. -/
noncomputable def frameSynthesis (n : ℕ) (f : BinauralFrame) : List ℝ × List ℝ :=
  (reconstruct n f.left f.residualLeft, reconstruct n f.right f.residualRight)

/-- The full per-frame pipeline: frame analysis of both channels, then the
masking step, then frame synthesis of both channels. -/
noncomputable def fullPipeline (m : MaskingMethod)
    (decompose : List ℝ → (Fin _nBins → List ℝ) × List ℝ) (n : ℕ)
    (s : MaskingState) (inLeft inRight : List ℝ) : List ℝ × List ℝ :=
  frameSynthesis n (processParametrisation m s (frameAnalysis decompose inLeft inRight)).2

/-- Plain filter-bank decompose followed by reconstruct for each channel,
following the words of the spec: the identity transform of the underlying
filter bank, with no masking step in between. -/
noncomputable def plainDecomposeReconstruct
    (decompose : List ℝ → (Fin _nBins → List ℝ) × List ℝ) (n : ℕ)
    (inLeft inRight : List ℝ) : List ℝ × List ℝ :=
  frameSynthesis n (frameAnalysis decompose inLeft inRight)

/-- Modelled from the spec: the body of `calculateThresholds` is not in the
repository.  Spec 4.1: the threshold of each bin is a geometric function of
the configured microphone distance, the acceptance angle and the bin center
frequency (passed in here as the abstract per-bin raw value), clamped at
construction to the nearest bound of the interval from -1 to 1 when it falls
outside. -/
def calculateThresholds (raw : Fin _nBins → ℝ) : Fin _nBins → ℝ :=
  fun b => max (-1) (min 1 (raw b))

/-- Iterated application of the recursive power-memory update with a constant
frame power, used to state the closed form of the exponential moving
average. -/
def iteratedMemory (memory0 power : ℝ) : ℕ → ℝ
  | 0 => memory0
  | k + 1 => memoryUpdate (iteratedMemory memory0 power k) power

/-- Energy of a sub-band signal is non-negative. -/
theorem energy_nonneg (x : List ℝ) : 0 ≤ energy x := by
  apply List.sum_nonneg
  intro a ha
  rcases List.mem_map.1 ha with ⟨c, _, rfl⟩
  exact mul_self_nonneg c

/-- Claim C10: the accessor getNonMaskingAngle returns the acceptance angle in
degrees, exactly 10, computed as the truncation of _phi times 180 times the
reciprocal of pi. -/
theorem getNonMaskingAngle_eq_ten : getNonMaskingAngle = 10 := by
  have h : _phi * 180 * Real.pi⁻¹ = 10 := by
    rw [_phi]
    field_simp
  rw [getNonMaskingAngle, h]
  norm_num

/-- Claim C8: getSpatialMaskingFactor returns the spatial masking factor and
getTemporalMaskingFactor returns the temporal masking factor: with both
factors configured as 1, the reciprocals computed by the accessors coincide
with the factors themselves. -/
theorem masking_factor_accessors :
    getSpatialMaskingFactor = _spatialMaskingFactor ∧
    getTemporalMaskingFactor = _temporalMaskingFactor := by
  constructor <;>
    norm_num [getSpatialMaskingFactor, getTemporalMaskingFactor,
      _spatialMaskingFactor, _temporalMaskingFactor]

/-- Claim C4: iterating the power-memory update rule for k frames of constant
power P, starting from memory0, yields the exponential-moving-average closed
form P times (1 minus 0.96 to the k) plus memory0 times 0.96 to the k. -/
theorem iteratedMemory_closed_form (memory0 P : ℝ) (k : ℕ) :
    iteratedMemory memory0 P k = P * (1 - 0.96 ^ k) + memory0 * 0.96 ^ k := by
  induction k with
  | zero => simp [iteratedMemory]
  | succ k ih =>
      rw [iteratedMemory, ih, memoryUpdate, _forgetingFactor]
      have h96 : (1 : ℝ) - 0.04 = 0.96 := by norm_num
      rw [h96, pow_succ]
      ring

/-- Claim C5: on a first frame the power memory of every bin is seeded directly
from the power of that frame; on a subsequent frame it is updated by the recursive
rule; in both cases unconditionally, with no hypothesis on the masking
decision of the bin. -/
theorem powerMemory_seed_and_update (m : MaskingMethod) (s : MaskingState)
    (f : BinauralFrame) (b : Fin _nBins) :
    (s.firstFrame = true →
      (processParametrisation m s f).1.shortTimePower b =
        getFramePower (f.left b) (f.right b)) ∧
    (s.firstFrame = false →
      (processParametrisation m s f).1.shortTimePower b =
        memoryUpdate (s.shortTimePower b) (getFramePower (f.left b) (f.right b))) := by
  constructor <;> intro h <;> simp [processParametrisation, updatedMemory, h]

/-- Claim C5 witness: a concrete first-frame state is seeded directly from the
frame power. -/
theorem powerMemory_seed_and_update_witness :
    (processParametrisation MaskingMethod.FULL ⟨fun _ => 0, fun _ => 0, true⟩
      ⟨fun _ => [1], fun _ => [1], [], []⟩).1.shortTimePower ⟨0, by decide⟩ =
      getFramePower [1] [1] :=
  (powerMemory_seed_and_update MaskingMethod.FULL ⟨fun _ => 0, fun _ => 0, true⟩
    ⟨fun _ => [1], fun _ => [1], [], []⟩ ⟨0, by decide⟩).1 rfl

/-- Claim C1: for signals of a common positive length with non-zero energies, the
bin is spatially rejected if and only if the covariance divided by the
product of the root-mean-square energies of the two signals is below the
threshold of the bin. -/
theorem spatialMasking_iff_below_threshold (l r : List ℝ) (th : Fin _nBins → ℝ)
    (b : Fin _nBins) (n : ℕ) (hl : l.length = n) (hn : 0 < n)
    (hel : energy l ≠ 0) (her : energy r ≠ 0) :
    spatialMasking l r th b ↔
      specCovariance l r / (specRmsEnergy l n * specRmsEnergy r n) < th b := by
  have hEl : 0 < energy l := lt_of_le_of_ne (energy_nonneg l) (Ne.symm hel)
  have hEr : 0 < energy r := lt_of_le_of_ne (energy_nonneg r) (Ne.symm her)
  have hnR : (0 : ℝ) < (n : ℝ) := by exact_mod_cast hn
  have key : specCovariance l r / (specRmsEnergy l n * specRmsEnergy r n) =
      normaliseCorrelation l r := by
    rw [normaliseCorrelation, if_neg (by push_neg; exact ⟨hel, her⟩)]
    rw [specCovariance, specRmsEnergy, specRmsEnergy, hl]
    rw [Real.sqrt_div (le_of_lt hEl), Real.sqrt_div (le_of_lt hEr)]
    have hsn : Real.sqrt n ≠ 0 := ne_of_gt (Real.sqrt_pos.2 hnR)
    have hsl : Real.sqrt (energy l) ≠ 0 := ne_of_gt (Real.sqrt_pos.2 hEl)
    have hsr : Real.sqrt (energy r) ≠ 0 := ne_of_gt (Real.sqrt_pos.2 hEr)
    have hnn : (n : ℝ) ≠ 0 := ne_of_gt hnR
    have hsq : Real.sqrt n * Real.sqrt n = n := Real.mul_self_sqrt (le_of_lt hnR)
    field_simp
  rw [spatialMasking, key]

/-- Claim C1 witness: the equivalence instantiated at two identical one-sample
signals of unit energy against a threshold of one half. -/
theorem spatialMasking_iff_below_threshold_witness :
    spatialMasking [1] [1] (fun _ => 1 / 2) ⟨0, by decide⟩ ↔
      specCovariance [1] [1] /
        (specRmsEnergy [1] 1 * specRmsEnergy [1] 1) < (1 : ℝ) / 2 :=
  spatialMasking_iff_below_threshold [1] [1] (fun _ => 1 / 2)
    ⟨0, by decide⟩ 1 rfl (by decide)
    (by norm_num [energy]) (by norm_num [energy])

/-- Claim C2: when either signal has zero energy the normalized correlation is 0
rather than a division by zero, and such a bin is spatially rejected exactly
when its threshold is positive. -/
theorem normaliseCorrelation_zero_energy (l r : List ℝ) (th : Fin _nBins → ℝ)
    (b : Fin _nBins) (h : energy l = 0 ∨ energy r = 0) :
    normaliseCorrelation l r = 0 ∧ (spatialMasking l r th b ↔ 0 < th b) := by
  have hc : normaliseCorrelation l r = 0 := by
    rw [normaliseCorrelation, if_pos h]
  refine ⟨hc, ?_⟩
  rw [spatialMasking, hc]

/-- Claim C2 witness: an all-zero frame has correlation 0 in the bin and is
rejected against the positive threshold 1. -/
theorem normaliseCorrelation_zero_energy_witness :
    normaliseCorrelation [0] [0] = 0 ∧
    (spatialMasking [0] [0] (fun _ => 1) ⟨0, by decide⟩ ↔ 0 < (1 : ℝ)) :=
  normaliseCorrelation_zero_energy [0] [0] (fun _ => 1) ⟨0, by decide⟩
    (Or.inl (by norm_num [energy]))

/-- Claim C3: the bin is temporally rejected if and only if the current frame power
is below the scaling factor times the power memory of the bin, and the
scaling factor is 0.01. -/
theorem temportalMasking_iff_below_scaled_memory (l r : List ℝ)
    (memory : Fin _nBins → ℝ) (b : Fin _nBins) :
    (temportalMasking l r memory b ↔
      getFramePower l r < 0.01 * memory b) ∧ _scalingFactor = 0.01 := by
  constructor
  · rw [temportalMasking, _scalingFactor]
  · rfl

/-- Every sample read out of a zeroed frame is 0, inside or outside its
length. -/
theorem zeroFrame_getD (x : List ℝ) (i : ℕ) : (zeroFrame x).getD i 0 = 0 := by
  rw [zeroFrame, List.getD_eq_getElem?_getD, List.getElem?_map]
  cases x[i]? <;> simp

/-- Claim C6: under the FULL method a masked bin has its sub-band signal set to 0
in both channels, and replacing that bin by an empty contribution leaves the
reconstructed output frame of each channel unchanged: the bin contributes
exactly zero. -/
theorem fullMasking_zeroes_bin (s : MaskingState) (f : BinauralFrame)
    (b : Fin _nBins) (n : ℕ)
    (hm : spatialMasking (f.left b) (f.right b) s.thresholds b ∨
          temportalMasking (f.left b) (f.right b) s.shortTimePower b) :
    (processParametrisation MaskingMethod.FULL s f).2.left b = zeroFrame (f.left b) ∧
    (processParametrisation MaskingMethod.FULL s f).2.right b = zeroFrame (f.right b) ∧
    reconstruct n
        (Function.update (processParametrisation MaskingMethod.FULL s f).2.left b [])
        f.residualLeft =
      reconstruct n (processParametrisation MaskingMethod.FULL s f).2.left
        f.residualLeft ∧
    reconstruct n
        (Function.update (processParametrisation MaskingMethod.FULL s f).2.right b [])
        f.residualRight =
      reconstruct n (processParametrisation MaskingMethod.FULL s f).2.right
        f.residualRight := by
  have hpb : processBin MaskingMethod.FULL s (f.left b) (f.right b) b =
      (zeroFrame (f.left b), zeroFrame (f.right b)) := by
    rw [processBin, if_pos hm]
  have hL : (processParametrisation MaskingMethod.FULL s f).2.left b =
      zeroFrame (f.left b) := by
    simp [processParametrisation, hpb]
  have hR : (processParametrisation MaskingMethod.FULL s f).2.right b =
      zeroFrame (f.right b) := by
    simp [processParametrisation, hpb]
  refine ⟨hL, hR, ?_, ?_⟩
  · rw [reconstruct, reconstruct]
    apply List.map_congr_left
    intro i _
    congr 1
    apply Finset.sum_congr rfl
    intro c _
    by_cases hc : c = b
    · subst hc
      rw [Function.update_same, hL, zeroFrame_getD]
      simp
    · rw [Function.update_noteq hc]
  · rw [reconstruct, reconstruct]
    apply List.map_congr_left
    intro i _
    congr 1
    apply Finset.sum_congr rfl
    intro c _
    by_cases hc : c = b
    · subst hc
      rw [Function.update_same, hR, zeroFrame_getD]
      simp
    · rw [Function.update_noteq hc]

/-- Claim C6 witness: a temporally rejected bin of a concrete frame is zeroed in
the left channel under the FULL method. -/
theorem fullMasking_zeroes_bin_witness :
    (processParametrisation MaskingMethod.FULL ⟨fun _ => 1000, fun _ => 1, false⟩
      ⟨fun _ => [1], fun _ => [1], [], []⟩).2.left ⟨0, by decide⟩ = zeroFrame [1] :=
  (fullMasking_zeroes_bin ⟨fun _ => 1000, fun _ => 1, false⟩
    ⟨fun _ => [1], fun _ => [1], [], []⟩ ⟨0, by decide⟩ 1
    (Or.inr (by norm_num [temportalMasking, getFramePower, energy, _scalingFactor]))).1

/-- Claim C7: with the FACTOR method and the configured default factors, all equal
to 1, the full pipeline of analysis, masking and synthesis coincides with
plain filter-bank decompose followed by reconstruct on every input frame and
engine state, for any decompose operation. -/
theorem factorMethod_default_identity
    (decompose : List ℝ → (Fin _nBins → List ℝ) × List ℝ) (n : ℕ)
    (s : MaskingState) (inLeft inRight : List ℝ) :
    fullPipeline MaskingMethod.FACTOR decompose n s inLeft inRight =
      plainDecomposeReconstruct decompose n inLeft inRight ∧
    _spatialMaskingFactor = 1 ∧ _temporalMaskingFactor = 1 ∧ _enhanceFactor = 1 := by
  refine ⟨?_, rfl, rfl, rfl⟩
  have hbin : ∀ (l r : List ℝ) (b : Fin _nBins),
      processBin MaskingMethod.FACTOR s l r b = (l, r) := by
    intro l r b
    rw [processBin]
    split_ifs <;>
      simp [maskFrameByFactor, enhanceFrame, _spatialMaskingFactor,
        _temporalMaskingFactor, _enhanceFactor]
  have hframe : ∀ (g : BinauralFrame),
      (processParametrisation MaskingMethod.FACTOR s g).2 = g := by
    intro g
    obtain ⟨gl, gr, resL, resR⟩ := g
    simp [processParametrisation, hbin]
  rw [fullPipeline, plainDecomposeReconstruct, hframe]

/-- Claim C9: every entry produced by the threshold computation lies in the
interval from -1 to 1; a raw geometric threshold outside the interval is
clamped to the nearest bound and one inside is kept as is; and the masking
step never modifies the threshold table. -/
theorem thresholds_clamped_and_immutable (raw : Fin _nBins → ℝ) (b : Fin _nBins)
    (m : MaskingMethod) (s : MaskingState) (f : BinauralFrame) :
    (-1 ≤ calculateThresholds raw b ∧ calculateThresholds raw b ≤ 1) ∧
    (raw b < -1 → calculateThresholds raw b = -1) ∧
    (1 < raw b → calculateThresholds raw b = 1) ∧
    (-1 ≤ raw b → raw b ≤ 1 → calculateThresholds raw b = raw b) ∧
    (processParametrisation m s f).1.thresholds = s.thresholds := by
  refine ⟨⟨le_max_left _ _, ?_⟩, ?_, ?_, ?_, rfl⟩
  · exact max_le (by norm_num) (min_le_left _ _)
  · intro h
    rw [calculateThresholds]
    rw [min_eq_right (le_of_lt (lt_of_lt_of_le h (by norm_num)))]
    exact max_eq_left (le_of_lt h)
  · intro h
    rw [calculateThresholds, min_eq_left (le_of_lt h)]
    norm_num
  · intro h1 h2
    rw [calculateThresholds, min_eq_right h2]
    exact max_eq_right h1

/-- Claim C9 witness: a raw threshold of 2 is clamped to 1. -/
theorem thresholds_clamped_and_immutable_witness :
    calculateThresholds (fun _ => 2) ⟨0, by decide⟩ = 1 :=
  (thresholds_clamped_and_immutable (fun _ => 2) ⟨0, by decide⟩
    MaskingMethod.FULL ⟨fun _ => 0, fun _ => 0, true⟩
    ⟨fun _ => [], fun _ => [], [], []⟩).2.2.1 (by norm_num)

end Mcarray
